import Mathlib

/-!
Verification of the Go analysis tool's engine client and analysis
orchestrator (`src/katago/engine.py`, `src/katago/analysis.py`,
`src/game/game_tree.py`) against its specification.

The Python source is shallowly embedded: pure functions become Lean
functions, `float` scores become `ℚ`, Python exceptions become `Option`
results (`none` = the call raised / timed out), and the external KataGo
engine becomes an oracle function supplied as a parameter.
-/

namespace GoAnalysis

/-- Python `chr`: valid for code points `0 ≤ code ≤ 0x10FFFF`, raises
`ValueError` otherwise (modelled as `none`). -/
def pychr (code : Int) : Option Char :=
  if 0 ≤ code ∧ code ≤ 0x10FFFF then some (Char.ofNat code.toNat) else none

/-- The whitespace characters Python strips around a numeral: space, tab,
newline, carriage return, vertical tab, form feed. (Python also strips
some non-ASCII space characters; no string in this development contains
one.) -/
def isPySpace (c : Char) : Bool :=
  c = ' ' || c = '\t' || c = '\n' || c = '\r' ||
  c = Char.ofNat 11 || c = Char.ofNat 12

/-- Strip `isPySpace` characters from both ends, as Python's numeral
conversions do. -/
def pyStrip (l : List Char) : List Char :=
  ((l.dropWhile isPySpace).reverse.dropWhile isPySpace).reverse

/-- The continuation of Python's `digitpart` grammar after its first
digit: each following character is a digit, or a single underscore that
must be followed by a digit. -/
def pyDigitTail : List Char → Bool
  | [] => true
  | '_' :: c :: tl => c.isDigit && pyDigitTail tl
  | ['_'] => false
  | c :: tl => c.isDigit && pyDigitTail tl

/-- Python's `digitpart`: one or more ASCII digits with single
underscores strictly between digits. (Python also accepts non-ASCII
decimal digits; no string in this development contains one.) -/
def isPyDigitPart : List Char → Bool
  | [] => false
  | c :: tl => c.isDigit && pyDigitTail tl

/-- The value of a `digitpart`, underscores ignored. -/
def pyDigitsVal (l : List Char) : Nat :=
  (l.filter (fun c => c ≠ '_')).foldl (fun a c => 10 * a + (c.toNat - 48)) 0

/-- The number of digits of a `digitpart`, underscores ignored. -/
def pyDigitCount (l : List Char) : Nat :=
  (l.filter (fun c => c ≠ '_')).length

/-- Python `int(s)` in base 10: whitespace stripped at both ends, an
optional single `+`/`-` sign, then a `digitpart`; `none` models
`ValueError`. -/
def pyint (s : String) : Option Int :=
  match pyStrip s.data with
  | '+' :: rest =>
    if isPyDigitPart rest then some (Int.ofNat (pyDigitsVal rest)) else none
  | '-' :: rest =>
    if isPyDigitPart rest then some (-(Int.ofNat (pyDigitsVal rest)))
    else none
  | l => if isPyDigitPart l then some (Int.ofNat (pyDigitsVal l)) else none

/-- Embeds `KataGoEngine.coords_to_gtp` (engine.py:305-321).
Column letter skips `I`; row number counts from the bottom.
`none` models the only possible Python failure (`chr` out of range). -/
def coords_to_gtp (row col : Int) (board_size : Nat) : Option String :=
  let code : Int := if col < 8 then 65 + col else 65 + col + 1
  match pychr code with
  | none => none
  | some col_letter =>
    let row_num : Int := (board_size : Int) - row
    some (String.mk [col_letter] ++ toString row_num)

/-- Python `str.lower`, written over the character list so that it reduces
definitionally. -/
def pylower (s : String) : String :=
  String.mk (s.data.map Char.toLower)

/-- Embeds `KataGoEngine.gtp_to_coords` (engine.py:323-349).
Outer `none` models a raised exception (empty string, unparsable row
number); `some none` is the `pass` sentinel; `some (some (r, c))` is a
coordinate. The source performs no range check on the result. -/
def gtp_to_coords (gtp_move : String) (board_size : Nat) :
    Option (Option (Int × Int)) :=
  if pylower gtp_move = "pass" then some none
  else
    match gtp_move.data with
    | [] => none
    | c0 :: rest =>
      let col_letter := c0.toUpper
      match pyint (String.mk rest) with
      | none => none
      | some row_num =>
        let col : Int :=
          if col_letter < 'I' then (col_letter.toNat : Int) - 65
          else (col_letter.toNat : Int) - 65 - 1
        let row : Int := (board_size : Int) - row_num
        some (some (row, col))

/-! ## Data model (game_tree.py, board.py, analysis.py dataclasses) -/

/-- `Stone` enum from board.py. -/
inductive Stone where
  | empty
  | black
  | white
deriving DecidableEq

/-- The closed union of SGF property values produced by the parser
(parser.py stores a string, a list of strings, or an int per key). -/
inductive PValue where
  | s (v : String)
  | l (v : List String)
  | i (v : Int)
deriving DecidableEq

/-- A Python float value: finite, one of the two infinities, or NaN. -/
inductive PyFloat where
  | finite (q : ℚ)
  | inf
  | neginf
  | nan
deriving DecidableEq

/-- A `digitpart` parsed to its numeric value, or `none` if malformed. -/
def parseDigitPart (l : List Char) : Option Nat :=
  if isPyDigitPart l then some (pyDigitsVal l) else none

/-- The mantissa of Python's float grammar:
`digitpart | [digitpart] "." [digitpart]` with at least one digit. -/
def parseMantissa (l : List Char) : Option ℚ :=
  match l.span (fun c => c ≠ '.') with
  | (ip, []) => (parseDigitPart ip).map (fun n => (n : ℚ))
  | ([], _ :: fp) =>
    (parseDigitPart fp).map (fun f => (f : ℚ) / 10 ^ pyDigitCount fp)
  | (ip, _ :: []) => (parseDigitPart ip).map (fun n => (n : ℚ))
  | (ip, _ :: fp) =>
    match parseDigitPart ip, parseDigitPart fp with
    | some n, some f => some ((n : ℚ) + (f : ℚ) / 10 ^ pyDigitCount fp)
    | _, _ => none

/-- A finite float literal after sign removal:
mantissa with an optional `e`/`E` exponent (`[sign] digitpart`). -/
def pyfloat_core (l : List Char) : Option ℚ :=
  match l.span (fun c => c ≠ 'e' ∧ c ≠ 'E') with
  | (mant, []) => parseMantissa mant
  | (mant, _ :: ex) =>
    let expPart : Option (Bool × Nat) :=
      match ex with
      | '+' :: tl => (parseDigitPart tl).map (fun e => (false, e))
      | '-' :: tl => (parseDigitPart tl).map (fun e => (true, e))
      | tl => (parseDigitPart tl).map (fun e => (false, e))
    match parseMantissa mant, expPart with
    | some m, some (eneg, e) =>
      some (if eneg then m / 10 ^ e else m * 10 ^ e)
    | _, _ => none

/-- Python `float(s)` on a string: whitespace stripped, an optional
single sign, then a finite literal or a case-insensitive
`inf`/`infinity`/`nan`; `none` models `ValueError`. (Python also accepts
non-ASCII digits and spaces; no string in this development contains
one.) -/
def pyfloat_str (s : String) : Option PyFloat :=
  let body : Bool → List Char → Option PyFloat := fun neg l =>
    let low := l.map Char.toLower
    if low = ['i', 'n', 'f'] ∨ low = ['i', 'n', 'f', 'i', 'n', 'i', 't', 'y']
    then some (if neg then PyFloat.neginf else PyFloat.inf)
    else if low = ['n', 'a', 'n'] then some PyFloat.nan
    else
      (pyfloat_core l).map (fun q => PyFloat.finite (if neg then -q else q))
  match pyStrip s.data with
  | '+' :: rest => body false rest
  | '-' :: rest => body true rest
  | l => body false l

/-- Python `float` applied to a stored property value. -/
def pyfloat : PValue → Option PyFloat
  | .s v => pyfloat_str v
  | .l _ => none
  | .i v => some (PyFloat.finite (v : ℚ))

/-- `GameNode` from game_tree.py restricted to the fields the analysis
orchestrator reads (children are carried by the tree type below; the
parent pointer is never read by the orchestrator). -/
structure GameNode where
  move : Option (Int × Int)
  color : Option Stone
  is_pass : Bool
  properties : List (String × PValue)
deriving DecidableEq

/-- The game tree: a `GameNode` payload plus a children list
(first child = main line), as in game_tree.py. -/
inductive GNodeT where
  | node (data : GameNode) (children : List GNodeT)

/-- `GameTree.get_main_line` (game_tree.py:208-219): root followed by the
chain of first children. -/
def main_line_of : GNodeT → List GameNode
  | .node d [] => [d]
  | .node d (c :: _) => d :: main_line_of c

/-- `GameTree` from game_tree.py restricted to the fields analysis reads. -/
structure GameTree where
  root : GNodeT
  board_size : Nat

/-- Properties of the tree's root node. -/
def GNodeT.props : GNodeT → List (String × PValue)
  | .node d _ => d.properties

/-- `GameTree.get_komi` (game_tree.py:246-256): root property `KM` parsed
as a float, default 6.5 when absent or unparsable. -/
def GameTree.get_komi (t : GameTree) : PyFloat :=
  match (match t.root.props.lookup "KM" with
         | none => pyfloat (PValue.s "6.5")
         | some v => pyfloat v) with
  | some k => k
  | none => PyFloat.finite 6.5

/-- `MoveAnalysis` dataclass (analysis.py:12-21). -/
structure MoveAnalysis where
  move : Option (Int × Int)
  is_pass : Bool
  win_rate : ℚ
  score_lead : ℚ
  visits : Int
  order : Int
  pv : List String
deriving DecidableEq

/-- `PositionAnalysis` dataclass (analysis.py:24-32). -/
structure PositionAnalysis where
  move_number : Nat
  played_move : Option (Int × Int)
  played_move_analysis : Option MoveAnalysis
  top_moves : List MoveAnalysis
  is_error : Bool
  point_loss : ℚ
deriving DecidableEq

/-- One entry of the engine's `moveInfos` array: a Python dict whose keys
may be absent (the parser applies `.get` defaults). -/
structure MoveInfo where
  move : Option String
  winrate : Option ℚ
  scoreLead : Option ℚ
  visits : Option Int
  order : Option Int
  pv : Option (List String)
deriving DecidableEq

/-- Raw analysis data returned by one engine query: a dict that may or may
not carry the `moveInfos` key. -/
structure AnalysisData where
  moveInfos : Option (List MoveInfo)
deriving DecidableEq

/-- Modelled from the spec: the stateless (JSON query) dialect's
`analyze_position(moves, board_size, komi, initial_player, max_visits,
initial_stones)` request, as invoked throughout analysis.py and the
repository's tests but absent from src/katago/engine.py (which holds only
the stateful GTP dialect). One record per issued query. -/
structure StatelessQuery where
  moves : List String
  board_size : Nat
  komi : PyFloat
  initial_player : String
  max_visits : Nat
  initial_stones : Option (List (List String))
deriving DecidableEq

/-- Modelled from the spec: the engine's stateless query endpoint as an
oracle — `none` models a timeout/failed call, `some` the parsed response
dict. -/
def Oracle := StatelessQuery → Option AnalysisData

/-! ## Candidate parsing (`_parse_move_candidates`, analysis.py:599-666) -/

/-- One iteration of the parse loop (analysis.py:615-645): `none` models
the `continue` taken when `gtp_to_coords` raises. -/
def parse_one_candidate (board_size : Nat) (i : Nat) (mi : MoveInfo) :
    Option MoveAnalysis :=
  let move_str := mi.move.getD ""
  let is_pass := pylower move_str = "pass"
  let mv : Option (Option (Int × Int)) :=
    if is_pass then some none
    else gtp_to_coords move_str board_size
  match mv with
  | none => none
  | some m =>
    some { move := m, is_pass := is_pass,
           win_rate := mi.winrate.getD 0, score_lead := mi.scoreLead.getD 0,
           visits := mi.visits.getD 0, order := mi.order.getD (i : Int),
           pv := mi.pv.getD [] }

/-- The pre-deduplication candidate list built by the parse loop. -/
def parsed_candidates (data : AnalysisData) (board_size : Nat) :
    List MoveAnalysis :=
  match data.moveInfos with
  | none => []
  | some infos =>
    infos.enum.filterMap (fun p => parse_one_candidate board_size p.1 p.2)

/-- The dict key used for deduplication: `'pass'` for passes (here `none`),
otherwise the move value. -/
def dedup_key (ma : MoveAnalysis) : Option (Option (Int × Int)) :=
  if ma.is_pass then none else some ma.move

/-- One dict store `seen_moves[key] = ma`, guarded by
`key not in seen_moves or ma.visits > seen_moves[key].visits`
(analysis.py:648-658); an updated key keeps its original position, as a
Python dict does. -/
def update_seen (k : Option (Option (Int × Int))) (ma : MoveAnalysis) :
    List (Option (Option (Int × Int)) × MoveAnalysis) →
    List (Option (Option (Int × Int)) × MoveAnalysis)
  | [] => [(k, ma)]
  | (k', v) :: rest =>
    if k = k' then
      (if ma.visits > v.visits then (k, ma) :: rest else (k', v) :: rest)
    else (k', v) :: update_seen k ma rest

/-- The deduplication fold over the candidate list. -/
def dedup_candidates (l : List MoveAnalysis) :
    List (Option (Option (Int × Int)) × MoveAnalysis) :=
  l.foldl (fun seen ma => update_seen (dedup_key ma) ma seen) []

/-- CPython's stable `list.sort(key=score_lead, reverse=True)`: an element
is inserted after every element with a strictly higher score-lead and
before ties that occur later in the list. -/
def insert_desc (x : MoveAnalysis) : List MoveAnalysis → List MoveAnalysis
  | [] => [x]
  | y :: ys =>
    if y.score_lead > x.score_lead then y :: insert_desc x ys
    else x :: y :: ys

/-- Stable descending insertion sort by score-lead. -/
def sort_desc : List MoveAnalysis → List MoveAnalysis
  | [] => []
  | x :: xs => insert_desc x (sort_desc xs)

/-- `_parse_move_candidates` (analysis.py:599-666): parse, deduplicate by
move key keeping highest visit count, sort by score-lead descending. -/
def parse_move_candidates (data : AnalysisData) (board_size : Nat) :
    List MoveAnalysis :=
  sort_desc ((dedup_candidates (parsed_candidates data board_size)).map Prod.snd)

/-! ## Verdict construction (`_create_position_analysis`, analysis.py:389-516) -/

/-- The candidate-matching loop (analysis.py:421-428): first candidate
whose pass flag matches a played pass, or whose move equals the played
move. -/
def find_played (node : GameNode) (top_moves : List MoveAnalysis) :
    Option MoveAnalysis :=
  top_moves.find? (fun ma =>
    if node.is_pass && ma.is_pass then true else decide (node.move = ma.move))

/-- The list of GTP move strings for the main-line prefix before index `k`
(the loop at analysis.py:201-208 and 440-446): passes become `"pass"`,
moves are converted, nodes with neither are skipped; `none` models an
exception raised by the conversion. -/
def build_prefix_gtp (main_line : List GameNode) (k : Nat)
    (board_size : Nat) : Option (List String) :=
  (main_line.take k).foldlM (fun acc n =>
    if n.is_pass then some (acc ++ ["pass"])
    else
      match n.move with
      | some (r, c) =>
        match coords_to_gtp r c board_size with
        | none => none
        | some g => some (acc ++ [g])
      | none => some acc) []

/-- `_create_position_analysis` (analysis.py:389-516), instrumented to also
return the list of secondary queries it issued (zero or one). The `engine`
argument is the stateless oracle, or `none` as in the parallel path. All
exceptions inside the secondary-query `try` block leave the played-move
analysis as `none`. -/
def create_position_analysis_q (error_threshold : ℚ) (move_number : Nat)
    (node : GameNode) (analysis_data : AnalysisData) (board_size : Nat)
    (engine : Option Oracle) (max_visits : Nat)
    (main_line : Option (List GameNode)) (move_index : Option Nat)
    (komi : PyFloat) : PositionAnalysis × List StatelessQuery :=
  let top_moves := parse_move_candidates analysis_data board_size
  let pma0 := find_played node top_moves
  let step2 : Option MoveAnalysis × List StatelessQuery :=
    match pma0, engine, node.move, node.is_pass, main_line, move_index with
    | none, some oracle, some mv, false, some ml, some mi =>
      (match build_prefix_gtp ml mi board_size with
       | none => (none, [])
       | some moves_with_played =>
         match coords_to_gtp mv.1 mv.2 board_size with
         | none => (none, [])
         | some g =>
           let q : StatelessQuery :=
             { moves := moves_with_played ++ [g], board_size := board_size,
               komi := komi, initial_player := "B", max_visits := max_visits,
               initial_stones := none }
           match oracle q with
           | none => (none, [q])
           | some opponent_analysis =>
             match opponent_analysis.moveInfos with
             | none => (none, [q])
             | some _ =>
               match parse_move_candidates opponent_analysis board_size with
               | [] => (none, [q])
               | best :: _ =>
                 (some { move := some mv, is_pass := false, win_rate := 1/2,
                         score_lead := -best.score_lead, visits := 0,
                         order := 999, pv := best.pv }, [q]))
    | _, _, _, _, _, _ => (pma0, [])
  let pma := step2.1
  let loss : ℚ × Bool :=
    match pma, top_moves with
    | some p, best :: _ =>
      let score_diff := |best.score_lead - p.score_lead|
      (score_diff, decide (score_diff ≥ error_threshold))
    | _, _ => (0, false)
  ({ move_number := move_number, played_move := node.move,
     played_move_analysis := pma, top_moves := top_moves.take 5,
     is_error := loss.2, point_loss := loss.1 }, step2.2)

/-- `_create_position_analysis` without the query log. -/
def create_position_analysis (error_threshold : ℚ) (move_number : Nat)
    (node : GameNode) (analysis_data : AnalysisData) (board_size : Nat)
    (engine : Option Oracle) (max_visits : Nat)
    (main_line : Option (List GameNode)) (move_index : Option Nat)
    (komi : PyFloat) : PositionAnalysis :=
  (create_position_analysis_q error_threshold move_number node analysis_data
    board_size engine max_visits main_line move_index komi).1

/-! ## Sequential batch (`_analyze_sequential`, analysis.py:125-244) -/

/-- Komi extraction at analysis.py:145-152: root `KM` property parsed as a
float, default 7.5 when absent or unparsable. -/
def get_komi_seq (main_line : List GameNode) : PyFloat :=
  match main_line with
  | [] => PyFloat.finite 7.5
  | root :: _ =>
    match (match root.properties.lookup "KM" with
           | none => pyfloat (PValue.s "7.5")
           | some v => pyfloat v) with
    | some k => k
    | none => PyFloat.finite 7.5

/-- Conversion of one SGF setup-stone string (analysis.py:163-173): a
two-character coordinate becomes `[color, gtp]`; any failure is caught and
the stone skipped (`none`). -/
def sgf_stone_to_entry (board_size : Nat) (color : String)
    (stone_pos : String) : Option (List String) :=
  match stone_pos.data with
  | [c0, c1] =>
    let row : Int := (c1.toNat : Int) - 97
    let col : Int := (c0.toNat : Int) - 97
    match coords_to_gtp row col board_size with
    | none => none
    | some g => some [color, g]
  | _ => none

/-- Handicap/setup stone extraction from the root node
(analysis.py:154-189): `AB` then `AW`, each only when stored as a list. -/
def extract_initial_stones (main_line : List GameNode) (board_size : Nat) :
    List (List String) :=
  match main_line with
  | [] => []
  | root :: _ =>
    if root.properties ≠ [] then
      let ab := match root.properties.lookup "AB" with
        | some (PValue.l vs) => vs.filterMap (sgf_stone_to_entry board_size "B")
        | _ => []
      let aw := match root.properties.lookup "AW" with
        | some (PValue.l vs) => vs.filterMap (sgf_stone_to_entry board_size "W")
        | _ => []
      ab ++ aw
    else []

/-- The primary stateless query issued for position `i` in sequential mode
(analysis.py:217-224). -/
def seq_primary_query (main_line : List GameNode) (board_size : Nat)
    (komi : PyFloat) (max_visits : Nat) (initial_stones : List (List String))
    (i : Nat) : Option StatelessQuery :=
  (build_prefix_gtp main_line i board_size).map (fun moves =>
    { moves := moves, board_size := board_size, komi := komi,
      initial_player := "B", max_visits := max_visits,
      initial_stones := if initial_stones ≠ [] then some initial_stones
        else none })

/-- One iteration of the `_analyze_sequential` loop body
(analysis.py:192-242): skip the root, issue the primary query, skip the
position on timeout, otherwise build its verdict. `none` models an
uncaught exception aborting the batch (only a failed coordinate
conversion can cause one). -/
def seq_step (error_threshold : ℚ) (oracle : Oracle)
    (main_line : List GameNode) (board_size max_visits : Nat) (komi : PyFloat)
    (stones : List (List String))
    (acc : List PositionAnalysis × List StatelessQuery)
    (p : Nat × GameNode) :
    Option (List PositionAnalysis × List StatelessQuery) :=
  let i := p.1
  let node := p.2
  if node.move = none ∧ node.is_pass = false then some acc
  else
    match seq_primary_query main_line board_size komi max_visits stones i with
    | none => none
    | some q =>
      match oracle q with
      | none => some (acc.1, acc.2 ++ [q])
      | some analysis_data =>
        let r := create_position_analysis_q error_threshold i node
          analysis_data board_size (some oracle) max_visits
          (some main_line) (some i) komi
        some (acc.1 ++ [r.1], acc.2 ++ [q] ++ r.2)

/-- `_analyze_sequential` (analysis.py:125-244), instrumented to also
return every query issued: komi and setup stones are extracted from the
root node once, then each enumerated main-line node is processed by
`seq_step`. -/
def analyze_sequential_q (error_threshold : ℚ) (oracle : Oracle)
    (main_line : List GameNode) (board_size : Nat) (max_visits : Nat) :
    Option (List PositionAnalysis × List StatelessQuery) :=
  main_line.enum.foldlM
    (seq_step error_threshold oracle main_line board_size max_visits
      (get_komi_seq main_line)
      (extract_initial_stones main_line board_size)) ([], [])

/-- `_analyze_sequential` without the query log. -/
def analyze_sequential (error_threshold : ℚ) (oracle : Oracle)
    (main_line : List GameNode) (board_size : Nat) (max_visits : Nat) :
    Option (List PositionAnalysis) :=
  (analyze_sequential_q error_threshold oracle main_line board_size
    max_visits).map Prod.fst

/-- `GameAnalyzer.analyze_game` (analysis.py:86-123): extract the main
line and always run the sequential path. Instrumented with the query
log. -/
def analyze_game_q (error_threshold : ℚ) (oracle : Oracle) (t : GameTree)
    (max_visits : Nat) : Option (List PositionAnalysis × List StatelessQuery) :=
  let main_line := main_line_of t.root
  if main_line = [] then some ([], [])
  else
    analyze_sequential_q error_threshold oracle main_line t.board_size
      max_visits

/-! ## Single-position entry point (`GameAnalyzer.analyze_position`,
analysis.py:518-597) -/

/-- `GameAnalyzer.analyze_position` (analysis.py:518-597), instrumented
with the query log. Outer `none` models an uncaught exception; the inner
`Option` is the function's own `None` result. -/
def analyzer_analyze_position_q (oracle : Oracle) (t : GameTree)
    (move_number : Nat) (max_visits : Nat) :
    Option (Option PositionAnalysis × List StatelessQuery) :=
  let board_size := t.board_size
  let komi := t.get_komi
  let main_line := main_line_of t.root
  if move_number ≥ main_line.length then some (none, [])
  else
    match build_prefix_gtp main_line move_number board_size with
    | none => none
    | some moves_gtp =>
      let q : StatelessQuery :=
        { moves := moves_gtp, board_size := board_size, komi := komi,
          initial_player := "B", max_visits := max_visits,
          initial_stones := none }
      match oracle q with
      | none => some (none, [q])
      | some analysis_data =>
        let top_moves := parse_move_candidates analysis_data board_size
        let pma :=
          match main_line.get? (move_number + 1) with
          | none => none
          | some next_node => find_played next_node top_moves
        some (some { move_number := move_number,
                     played_move :=
                       match main_line.get? move_number with
                       | some n => n.move
                       | none => none,
                     played_move_analysis := pma,
                     top_moves := top_moves.take 5,
                     is_error := false, point_loss := 0 }, [q])

/-! ## Parallel batch (`_analyze_parallel`, analysis.py:246-387) -/

/-- A deterministic stub engine's behaviour for one assigned position:
the successive results of its `play_move` calls (consumed in call order;
a call beyond the list fails) and the analysis result that follows a
successful replay. -/
structure EngineScript where
  play_results : List Bool
  analysis_result : Option AnalysisData

/-- The `(color, move)` arguments of the `play_move` calls the worker
issues while replaying the prefix before `move_index`
(analysis.py:307-323); `none` models a raised coordinate conversion. -/
def replay_calls (main_line : List GameNode) (move_index : Nat)
    (board_size : Nat) : Option (List (String × String)) :=
  (main_line.take move_index).foldlM (fun acc n =>
    if n.is_pass then
      some (acc ++ [(if n.color = some Stone.black then "B" else "W", "pass")])
    else
      match n.move with
      | some (r, c) =>
        match coords_to_gtp r c board_size with
        | none => none
        | some g =>
          some (acc ++ [(if n.color = some Stone.black then "B" else "W", g)])
      | none => some acc) []

/-- The worker body `analyze_move` inside `_analyze_parallel`
(analysis.py:288-356): clear the board, replay the prefix once — aborting
on the first rejected `play_move` — then analyze. Every failure path
(root skip, replay failure, timeout, exception) returns `none`; the whole
body runs inside `try/except`, so nothing propagates. -/
def analyze_move_parallel (error_threshold : ℚ) (script : EngineScript)
    (main_line : List GameNode) (move_index : Nat) (node : GameNode)
    (board_size : Nat) (max_visits : Nat) : Option PositionAnalysis :=
  if node.move = none ∧ node.is_pass = false then none
  else
    match replay_calls main_line move_index board_size with
    | none => none
    | some calls =>
      let replay_ok := (List.range calls.length).all
        (fun j => script.play_results.getD j false)
      if ¬ replay_ok then none
      else
        match script.analysis_result with
        | none => none
        | some analysis_data =>
          some (create_position_analysis error_threshold move_index node
            analysis_data board_size none max_visits none none
            (PyFloat.finite 7.5))

/-- Result collection in `_analyze_parallel` (analysis.py:284,374-387): an
index-keyed results array filled as futures complete (in
`completion_order`), then filtered of `None`. -/
def collect_parallel (n : Nat) (f : Nat → Option PositionAnalysis)
    (completion_order : List Nat) : List PositionAnalysis :=
  (completion_order.foldl (fun results idx => results.set idx (f idx))
    (List.replicate n none)).filterMap id

/-- `_analyze_parallel` driven by a deterministic per-position engine
script, parameterized by the order in which futures complete. -/
def analyze_parallel (error_threshold : ℚ) (scripts : Nat → EngineScript)
    (main_line : List GameNode) (board_size : Nat) (max_visits : Nat)
    (completion_order : List Nat) : List PositionAnalysis :=
  collect_parallel main_line.length
    (fun i =>
      match main_line.get? i with
      | some node =>
        analyze_move_parallel error_threshold (scripts i) main_line i node
          board_size max_visits
      | none => none)
    completion_order

/-! ## Error list (`get_error_moves`, analysis.py:668-683) -/

/-- `get_error_moves` (analysis.py:668-683): `(move_number, played_move)`
pairs of the analyses whose error flag is set and whose played move is a
(truthy) coordinate tuple. -/
def get_error_moves (analyses : List PositionAnalysis) :
    List (Nat × (Int × Int)) :=
  analyses.filterMap (fun a =>
    if a.is_error then
      match a.played_move with
      | some mv => some (a.move_number, mv)
      | none => none
    else none)

/-! ## Theorems -/

/-- C7: for every board size in {9, 13, 19} and every valid coordinate
`(row, col)` with `0 ≤ row < size` and `0 ≤ col < size`, decoding the
encoding returns the original pair, including across the skipped column
letter `I`. -/
theorem coords_gtp_roundtrip :
    ∀ size ∈ ([9, 13, 19] : List Nat), ∀ row < size, ∀ col < size,
      (coords_to_gtp (row : Int) (col : Int) size).bind
          (fun s => gtp_to_coords s size) =
        some (some ((row : Int), (col : Int))) := by
  decide

/-- Witness for C7 at size 19, row 15, col 8 (the first column past the
skipped letter `I`). -/
theorem coords_gtp_roundtrip_witness :
    (coords_to_gtp (15 : Int) (8 : Int) 19).bind
        (fun s => gtp_to_coords s 19) = some (some ((15 : Int), (8 : Int))) :=
  coords_gtp_roundtrip 19 (by decide) 15 (by decide) 8 (by decide)

/-- C9 counterexample: the decode operation does not fail on text denoting
out-of-range coordinates — `"A99"` on a 9×9 board silently decodes to the
off-board coordinate `(-90, 0)` — and the encode operation does not fail
on the out-of-range input `(0, 25)` on a 19×19 board, returning the
off-board text `"[19"`. -/
theorem gtp_no_range_check_counterexample :
    gtp_to_coords "A99" 9 = some (some ((-90 : Int), (0 : Int))) ∧
    coords_to_gtp 0 25 19 = some "[19" := by
  decide

/-- C9 (amended): the decode operation fails for malformed move text — the
empty string, or any non-pass text whose tail after the first character
Python's `int()` rejects — while `int()`-parsable rows such as the
`+`-signed `"D+5"` decode to a coordinate; and neither operation checks
ranges: out-of-range texts decode to silently off-board coordinates and
out-of-range pairs encode to silently off-board text. -/
theorem gtp_malformed_fails_no_range_check :
    (∀ bs : Nat, gtp_to_coords "" bs = none) ∧
    (∀ (bs : Nat) (c : Char) (rest : List Char),
        pylower (String.mk (c :: rest)) ≠ "pass" →
        pyint (String.mk rest) = none →
        gtp_to_coords (String.mk (c :: rest)) bs = none) ∧
    gtp_to_coords "D+5" 19 = some (some ((14 : Int), (3 : Int))) ∧
    gtp_to_coords "A99" 9 = some (some ((-90 : Int), (0 : Int))) ∧
    coords_to_gtp 0 25 19 = some "[19" := by
  refine ⟨fun bs => rfl, fun bs c rest hpass hnum => ?_, by decide, by decide,
    by decide⟩
  unfold gtp_to_coords
  rw [if_neg hpass]
  show (match pyint (String.mk rest) with
        | none => none
        | some row_num => _) = none
  rw [hnum]

/-- Witness for the hypothesis-carrying part of the amended C9: `"Dx"` has
a non-integer row part and is rejected. -/
theorem gtp_malformed_fails_witness : gtp_to_coords "Dx" 19 = none :=
  gtp_malformed_fails_no_range_check.2.1 19 'D' ['x'] (by decide) (by decide)

/-- C1: the computed `point_loss` equals the absolute difference between
the top candidate's score-lead and the played move's score-lead, the error
flag is set iff that loss is ≥ the configured threshold (boundary
inclusive), and when the played move's evaluation could not be determined
the loss is 0 and the flag false. -/
theorem point_loss_error_flag (threshold : ℚ) (komi : PyFloat) (n : Nat)
    (node : GameNode) (data : AnalysisData) (bs maxv : Nat)
    (engine : Option Oracle) (ml : Option (List GameNode))
    (mi : Option Nat) :
    let r := create_position_analysis threshold n node data bs engine maxv
      ml mi komi
    (∀ p best rest, r.played_move_analysis = some p →
        parse_move_candidates data bs = best :: rest →
        r.point_loss = |best.score_lead - p.score_lead| ∧
          (r.is_error = true ↔ r.point_loss ≥ threshold)) ∧
    (r.played_move_analysis = none → r.point_loss = 0 ∧ r.is_error = false) := by
  simp only [create_position_analysis, create_position_analysis_q]
  generalize (match
      find_played node (parse_move_candidates data bs), engine, node.move,
      node.is_pass, ml, mi with
    | none, some oracle, some mv, false, some ml', some mi' =>
      _
    | _, _, _, _, _, _ =>
      (find_played node (parse_move_candidates data bs), []) :
      Option MoveAnalysis × List StatelessQuery) = step2
  constructor
  · intro p best rest hp htm
    cases hq : step2.1 with
    | none => rw [hq] at hp; exact absurd hp (by simp)
    | some p' =>
      rw [hq] at hp
      cases hp
      rw [htm]
      simp [decide_eq_true_iff]
  · intro hp
    cases hq : step2.1 with
    | none => cases parse_move_candidates data bs <;> simp
    | some p' => rw [hq] at hp; exact absurd hp (by simp)

/-- Concrete played node for the C1 witness: Black plays (0, 0), GTP
`A19`. -/
def c1node : GameNode :=
  { move := some (0, 0), color := some Stone.black, is_pass := false,
    properties := [] }

/-- Engine data for the C1 witness, boundary case: best `B19` score-lead
4.0, played `A19` score-lead 1.0. -/
def c1data : AnalysisData :=
  { moveInfos := some
      [ { move := some "B19", winrate := none, scoreLead := some 4,
          visits := some 10, order := some 0, pv := none },
        { move := some "A19", winrate := none, scoreLead := some 1,
          visits := some 5, order := some 1, pv := none } ] }

/-- Engine data for the C1 witness, non-error case: played score-lead
1.5. -/
def c1data2 : AnalysisData :=
  { moveInfos := some
      [ { move := some "B19", winrate := none, scoreLead := some 4,
          visits := some 10, order := some 0, pv := none },
        { move := some "A19", winrate := none, scoreLead := some (mkRat 3 2),
          visits := some 5, order := some 1, pv := none } ] }

/-- Parsed best candidate in the C1 witness. -/
def c1best : MoveAnalysis :=
  { move := some (0, 1), is_pass := false, win_rate := 0, score_lead := 4,
    visits := 10, order := 0, pv := [] }

/-- Parsed played candidate (boundary case) in the C1 witness. -/
def c1played : MoveAnalysis :=
  { move := some (0, 0), is_pass := false, win_rate := 0, score_lead := 1,
    visits := 5, order := 1, pv := [] }

/-- Parsed played candidate (non-error case) in the C1 witness. -/
def c1played2 : MoveAnalysis :=
  { move := some (0, 0), is_pass := false, win_rate := 0,
    score_lead := mkRat 3 2, visits := 5, order := 1, pv := [] }

/-- Witness for C1 at the spec's two threshold examples: threshold 3.0
with best 4.0 and played 1.0 gives loss 3.0 (boundary, error), played 1.5
gives loss 2.5 (no error). -/
theorem point_loss_error_flag_witness :
    ((create_position_analysis 3 1 c1node c1data 19 none 10 none none
        (PyFloat.finite (15/2))).point_loss = |(4 : ℚ) - 1| ∧
      ((create_position_analysis 3 1 c1node c1data 19 none 10 none none
          (PyFloat.finite (15/2))).is_error = true ↔
        (create_position_analysis 3 1 c1node c1data 19 none 10 none none
          (PyFloat.finite (15/2))).point_loss ≥ 3)) ∧
    ((create_position_analysis 3 1 c1node c1data2 19 none 10 none none
        (PyFloat.finite (15/2))).point_loss = |(4 : ℚ) - mkRat 3 2| ∧
      ((create_position_analysis 3 1 c1node c1data2 19 none 10 none none
          (PyFloat.finite (15/2))).is_error = true ↔
        (create_position_analysis 3 1 c1node c1data2 19 none 10 none none
          (PyFloat.finite (15/2))).point_loss ≥ 3)) :=
  ⟨(point_loss_error_flag 3 (PyFloat.finite (15/2)) 1 c1node c1data 19 10 none none
      none).1
      c1played c1best [c1played] (by decide) (by decide),
   (point_loss_error_flag 3 (PyFloat.finite (15/2)) 1 c1node c1data2 19 10 none none
      none).1
      c1played2 c1best [c1played2] (by decide) (by decide)⟩

/-- C2: when the played move is absent from the returned candidates, the
orchestrator issues a second query on the move prefix extended with the
played move (the hypotheses name that exact query), and the verdict's
played-move analysis is non-null, with score-lead the negation of the best
candidate's score-lead from that opponent-perspective query and with that
candidate's principal variation. -/
theorem secondary_query_spec (threshold : ℚ) (komi : PyFloat) (n mi bs maxv : Nat)
    (oracle : Oracle) (node : GameNode) (data : AnalysisData)
    (ml : List GameNode) (rc : Int × Int)
    (hmove : node.move = some rc) (hpass : node.is_pass = false)
    (hnotfound : find_played node (parse_move_candidates data bs) = none)
    (pre : List String) (hpre : build_prefix_gtp ml mi bs = some pre)
    (g : String) (hg : coords_to_gtp rc.1 rc.2 bs = some g)
    (od : AnalysisData)
    (ho : oracle { moves := pre ++ [g], board_size := bs, komi := komi,
                   initial_player := "B", max_visits := maxv,
                   initial_stones := none } = some od)
    (infos : List MoveInfo) (hmi : od.moveInfos = some infos)
    (best : MoveAnalysis) (rest : List MoveAnalysis)
    (hbest : parse_move_candidates od bs = best :: rest) :
    (create_position_analysis threshold n node data bs (some oracle) maxv
        (some ml) (some mi) komi).played_move_analysis =
      some { move := some rc, is_pass := false, win_rate := 1/2,
             score_lead := -best.score_lead, visits := 0, order := 999,
             pv := best.pv } := by
  simp only [create_position_analysis, create_position_analysis_q]
  rw [hnotfound, hmove, hpass]
  simp only []
  rw [hpre]
  cases rc with
  | mk r c =>
    simp only []
    rw [hg] at *
    simp only [hg, ho, hmi, hbest]

/-- Root node used in the C2 witness game. -/
def c2root : GameNode :=
  { move := none, color := none, is_pass := false, properties := [] }

/-- Primary-query data for the C2 witness: the single candidate `B19`
does not contain the played move `A19`. -/
def c2data : AnalysisData :=
  { moveInfos := some
      [ { move := some "B19", winrate := none, scoreLead := some 4,
          visits := some 10, order := some 0, pv := none } ] }

/-- The single `moveInfos` entry of the opponent-perspective response in
the C2 witness. -/
def c2info : MoveInfo :=
  { move := some "C19", winrate := none, scoreLead := some 2,
    visits := some 7, order := some 0, pv := some ["C19", "D19"] }

/-- Opponent-perspective response for the C2 witness. -/
def c2od : AnalysisData := { moveInfos := some [c2info] }

/-- Deterministic engine for the C2 witness: answers only the secondary
query `["A19"]`. -/
def c2oracle : Oracle := fun q =>
  if q.moves = ["A19"] then some c2od else none

/-- Best opponent candidate parsed from `c2od` in the C2 witness. -/
def c2best : MoveAnalysis :=
  { move := some (0, 2), is_pass := false, win_rate := 0, score_lead := 2,
    visits := 7, order := 0, pv := ["C19", "D19"] }

/-- Witness for C2: the played `A19` is absent from the candidates, the
secondary query on prefix `[] ++ ["A19"]` answers with best score-lead 2,
and the verdict's played-move analysis carries score-lead −2 and the
opponent's principal variation. -/
theorem secondary_query_spec_witness :
    (create_position_analysis 3 1 c1node c2data 19 (some c2oracle) 10
        (some [c2root]) (some 1) (PyFloat.finite (15/2))).played_move_analysis =
      some { move := some (0, 0), is_pass := false, win_rate := 1/2,
             score_lead := -c2best.score_lead, visits := 0, order := 999,
             pv := c2best.pv } :=
  secondary_query_spec 3 (PyFloat.finite (15/2)) 1 1 19 10 c2oracle c1node c2data
    [c2root]
    (0, 0) (by decide) (by decide) (by decide) [] (by decide) "A19"
    (by decide) c2od (by decide) [c2info] (by decide) c2best [] (by decide)

/-- An error verdict with value-loss 5, for the C8 counterexample. -/
def c8v1 : PositionAnalysis :=
  { move_number := 3, played_move := some (0, 0),
    played_move_analysis := none, top_moves := [], is_error := true,
    point_loss := 5 }

/-- The same verdict with value-loss 7. -/
def c8v2 : PositionAnalysis :=
  { move_number := 3, played_move := some (0, 0),
    played_move_analysis := none, top_moves := [], is_error := true,
    point_loss := 7 }

/-- C8 counterexample: two error verdicts that differ only in their
value-loss produce identical `get_error_moves` outputs, so the derived
entries cannot be the claimed (move-index, coordinate, value-loss)
triples — the code emits only (move-index, coordinate) pairs. -/
theorem error_moves_drop_loss_counterexample :
    get_error_moves [c8v1] = [(3, ((0 : Int), (0 : Int)))] ∧
    get_error_moves [c8v2] = [(3, ((0 : Int), (0 : Int)))] ∧
    c8v1.point_loss ≠ c8v2.point_loss := by
  decide

/-- C8 (amended): the derived error list contains exactly one entry per
verdict whose error flag is set and whose played move exists, and each
entry is the pair (move-index, coordinate); the value-loss is not part of
the entry. -/
theorem error_moves_pairs (l : List PositionAnalysis) :
    get_error_moves l =
      (l.filter (fun a => a.is_error && a.played_move.isSome)).map
        (fun a => (a.move_number, a.played_move.iget)) := by
  induction l with
  | nil => rfl
  | cons a rest ih =>
    cases he : a.is_error <;> cases hm : a.played_move <;>
      simp [get_error_moves, List.filterMap_cons, he, hm, Option.iget, ← ih]

/-! Lemmas about the candidate sort (stable descending by score-lead). -/

lemma insert_desc_perm (x : MoveAnalysis) (l : List MoveAnalysis) :
    (insert_desc x l).Perm (x :: l) := by
  induction l with
  | nil => exact List.Perm.refl _
  | cons y ys ih =>
    by_cases h : y.score_lead > x.score_lead
    · rw [insert_desc, if_pos h]
      exact (ih.cons y).trans (List.Perm.swap x y ys)
    · rw [insert_desc, if_neg h]

lemma sort_desc_perm (l : List MoveAnalysis) : (sort_desc l).Perm l := by
  induction l with
  | nil => exact List.Perm.refl _
  | cons x xs ih => exact (insert_desc_perm x (sort_desc xs)).trans (ih.cons x)

lemma insert_desc_sorted (x : MoveAnalysis) (l : List MoveAnalysis)
    (hl : l.Pairwise (fun a b => b.score_lead ≤ a.score_lead)) :
    (insert_desc x l).Pairwise (fun a b => b.score_lead ≤ a.score_lead) := by
  induction l with
  | nil => simp [insert_desc]
  | cons y ys ih =>
    rcases List.pairwise_cons.mp hl with ⟨hy, hys⟩
    by_cases h : y.score_lead > x.score_lead
    · rw [insert_desc, if_pos h]
      refine List.pairwise_cons.mpr ⟨?_, ih hys⟩
      intro z hz
      rcases List.mem_cons.mp ((insert_desc_perm x ys).mem_iff.mp hz) with
        rfl | hz'
      · exact le_of_lt h
      · exact hy z hz'
    · rw [insert_desc, if_neg h]
      push_neg at h
      refine List.pairwise_cons.mpr ⟨?_, hl⟩
      intro z hz
      rcases List.mem_cons.mp hz with rfl | hz
      · exact h
      · exact (hy z hz).trans h

lemma sort_desc_sorted (l : List MoveAnalysis) :
    (sort_desc l).Pairwise (fun a b => b.score_lead ≤ a.score_lead) := by
  induction l with
  | nil => simp [sort_desc]
  | cons x xs ih => exact insert_desc_sorted x (sort_desc xs) ih

/-! Lemmas about the deduplication fold. -/

lemma update_seen_mem {k : Option (Option (Int × Int))} {ma : MoveAnalysis}
    {seen : List (Option (Option (Int × Int)) × MoveAnalysis)}
    {p : Option (Option (Int × Int)) × MoveAnalysis}
    (hp : p ∈ update_seen k ma seen) : p ∈ seen ∨ p = (k, ma) := by
  induction seen with
  | nil => simpa [update_seen] using hp
  | cons q rest ih =>
    obtain ⟨k', v⟩ := q
    rw [update_seen] at hp
    by_cases hk : k = k'
    · rw [if_pos hk] at hp
      by_cases hv : ma.visits > v.visits
      · rw [if_pos hv] at hp
        rcases List.mem_cons.mp hp with rfl | hp
        · exact Or.inr (by rw [hk])
        · exact Or.inl (List.mem_cons_of_mem _ hp)
      · rw [if_neg hv] at hp
        exact Or.inl hp
    · rw [if_neg hk] at hp
      rcases List.mem_cons.mp hp with rfl | hp
      · exact Or.inl (List.mem_cons_self _ _)
      · rcases ih hp with h | h
        · exact Or.inl (List.mem_cons_of_mem _ h)
        · exact Or.inr h

lemma update_seen_keys (k : Option (Option (Int × Int))) (ma : MoveAnalysis)
    (seen : List (Option (Option (Int × Int)) × MoveAnalysis)) :
    (update_seen k ma seen).map Prod.fst = seen.map Prod.fst ∨
    ((update_seen k ma seen).map Prod.fst = seen.map Prod.fst ++ [k] ∧
      k ∉ seen.map Prod.fst) := by
  induction seen with
  | nil => exact Or.inr (by simp [update_seen])
  | cons q rest ih =>
    obtain ⟨k', v⟩ := q
    rw [update_seen]
    by_cases hk : k = k'
    · rw [if_pos hk]
      by_cases hv : ma.visits > v.visits
      · rw [if_pos hv]; exact Or.inl (by simp [hk])
      · rw [if_neg hv]; exact Or.inl rfl
    · rw [if_neg hk]
      rcases ih with h | ⟨h, hnot⟩
      · exact Or.inl (by simp [h])
      · refine Or.inr ⟨by simp [h], ?_⟩
        simp only [List.map_cons]
        intro hc
        rcases List.mem_cons.mp hc with he | hc'
        · exact hk he
        · exact hnot hc'

lemma update_seen_nodup {k : Option (Option (Int × Int))} {ma : MoveAnalysis}
    {seen : List (Option (Option (Int × Int)) × MoveAnalysis)}
    (h : (seen.map Prod.fst).Nodup) :
    ((update_seen k ma seen).map Prod.fst).Nodup := by
  rcases update_seen_keys k ma seen with he | ⟨he, hnot⟩
  · rw [he]; exact h
  · rw [he, List.nodup_append]
    refine ⟨h, List.nodup_singleton _, fun a ha hb => ?_⟩
    rw [List.mem_singleton] at hb
    exact hnot (hb ▸ ha)

lemma update_seen_upper (k : Option (Option (Int × Int))) (ma : MoveAnalysis)
    (seen : List (Option (Option (Int × Int)) × MoveAnalysis)) :
    (∃ q ∈ update_seen k ma seen, q.1 = k ∧ ma.visits ≤ q.2.visits) ∧
    (∀ p ∈ seen, ∃ q ∈ update_seen k ma seen,
      q.1 = p.1 ∧ p.2.visits ≤ q.2.visits) := by
  induction seen with
  | nil =>
    refine ⟨⟨(k, ma), by simp [update_seen], rfl, le_refl _⟩, by simp⟩
  | cons q0 rest ih =>
    obtain ⟨k', v⟩ := q0
    rw [update_seen]
    by_cases hk : k = k'
    · rw [if_pos hk]
      by_cases hv : ma.visits > v.visits
      · rw [if_pos hv]
        refine ⟨⟨(k, ma), List.mem_cons_self _ _, rfl, le_refl _⟩, ?_⟩
        intro p hp
        rcases List.mem_cons.mp hp with rfl | hp
        · exact ⟨(k, ma), List.mem_cons_self _ _, by rw [hk], le_of_lt hv⟩
        · exact ⟨p, List.mem_cons_of_mem _ hp, rfl, le_refl _⟩
      · rw [if_neg hv]
        push_neg at hv
        refine ⟨⟨(k', v), List.mem_cons_self _ _, hk.symm, hv⟩, ?_⟩
        intro p hp
        exact ⟨p, hp, rfl, le_refl _⟩
    · rw [if_neg hk]
      refine ⟨?_, ?_⟩
      · obtain ⟨q, hq, hqk, hqv⟩ := ih.1
        exact ⟨q, List.mem_cons_of_mem _ hq, hqk, hqv⟩
      · intro p hp
        rcases List.mem_cons.mp hp with rfl | hp
        · exact ⟨(k', v), List.mem_cons_self _ _, rfl, le_refl _⟩
        · obtain ⟨q, hq, hqk, hqv⟩ := ih.2 p hp
          exact ⟨q, List.mem_cons_of_mem _ hq, hqk, hqv⟩

lemma update_seen_wf {k : Option (Option (Int × Int))} {ma : MoveAnalysis}
    {seen : List (Option (Option (Int × Int)) × MoveAnalysis)}
    (hseen : ∀ p ∈ seen, dedup_key p.2 = p.1) (hk : dedup_key ma = k) :
    ∀ p ∈ update_seen k ma seen, dedup_key p.2 = p.1 := by
  intro p hp
  rcases update_seen_mem hp with h | h
  · exact hseen p h
  · rw [h]; exact hk


lemma nodup_keys_unique
    {D : List (Option (Option (Int × Int)) × MoveAnalysis)}
    (h : (D.map Prod.fst).Nodup)
    {p q : Option (Option (Int × Int)) × MoveAnalysis}
    (hp : p ∈ D) (hq : q ∈ D) (hpq : p.1 = q.1) : p = q := by
  induction D with
  | nil => cases hp
  | cons a rest ih =>
    rw [List.map_cons, List.nodup_cons] at h
    rcases List.mem_cons.mp hp with rfl | hp' <;>
      rcases List.mem_cons.mp hq with rfl | hq'
    · rfl
    · exact absurd (hpq ▸ List.mem_map_of_mem Prod.fst hq') h.1
    · exact absurd (hpq ▸ List.mem_map_of_mem Prod.fst hp') h.1
    · exact ih h.2 hp' hq'

lemma dedup_fold_spec (l : List MoveAnalysis) :
    ∀ seen : List (Option (Option (Int × Int)) × MoveAnalysis),
      (∀ p ∈ seen, dedup_key p.2 = p.1) →
      (seen.map Prod.fst).Nodup →
      (∀ p ∈ l.foldl (fun s ma => update_seen (dedup_key ma) ma s) seen,
        dedup_key p.2 = p.1) ∧
      ((l.foldl (fun s ma => update_seen (dedup_key ma) ma s) seen).map
        Prod.fst).Nodup ∧
      (∀ p ∈ l.foldl (fun s ma => update_seen (dedup_key ma) ma s) seen,
        (p.2 ∈ l ∨ p ∈ seen) ∧
        ∀ y ∈ l, dedup_key y = p.1 → y.visits ≤ p.2.visits) ∧
      (∀ x ∈ l, ∃ p ∈ l.foldl (fun s ma => update_seen (dedup_key ma) ma s)
        seen, p.1 = dedup_key x) ∧
      (∀ p ∈ seen, ∃ q ∈ l.foldl (fun s ma => update_seen (dedup_key ma) ma s)
        seen, q.1 = p.1 ∧ p.2.visits ≤ q.2.visits) := by
  induction l with
  | nil =>
    intro seen h1 h2
    exact ⟨h1, h2, fun p hp => ⟨Or.inr hp, by simp⟩, by simp,
      fun p hp => ⟨p, hp, rfl, le_refl _⟩⟩
  | cons ma l' ih =>
    intro seen h1 h2
    have h1' := @update_seen_wf (dedup_key ma) ma seen h1 rfl
    have h2' := @update_seen_nodup (dedup_key ma) ma seen h2
    obtain ⟨A, B, C, D4, E⟩ := ih (update_seen (dedup_key ma) ma seen) h1' h2'
    rw [List.foldl_cons]
    refine ⟨A, B, ?_, ?_, ?_⟩
    · intro p hp
      obtain ⟨hmem, hmax⟩ := C p hp
      refine ⟨?_, ?_⟩
      · rcases hmem with h | h
        · exact Or.inl (List.mem_cons_of_mem _ h)
        · rcases update_seen_mem h with h' | h'
          · exact Or.inr h'
          · exact Or.inl (by rw [h']; exact List.mem_cons_self _ _)
      · intro y hy hkey
        rcases List.mem_cons.mp hy with rfl | hy'
        · obtain ⟨q, hq, hqk, hqv⟩ :=
            (update_seen_upper (dedup_key y) y seen).1
          obtain ⟨q', hq', hq'k, hq'v⟩ := E q hq
          have : p = q' := nodup_keys_unique B hp hq'
            (by rw [hq'k, hqk, ← hkey])
          rw [this]
          exact hqv.trans hq'v
        · exact hmax y hy' hkey
    · intro x hx
      rcases List.mem_cons.mp hx with rfl | hx'
      · obtain ⟨q, hq, hqk, _⟩ := (update_seen_upper (dedup_key x) x seen).1
        obtain ⟨q', hq', hq'k, _⟩ := E q hq
        exact ⟨q', hq', by rw [hq'k, hqk]⟩
      · exact D4 x hx'
    · intro p hp
      obtain ⟨q, hq, hqk, hqv⟩ := (update_seen_upper (dedup_key ma) ma seen).2
        p hp
      obtain ⟨q', hq', hq'k, hq'v⟩ := E q hq
      exact ⟨q', hq', by rw [hq'k, hqk], hqv.trans hq'v⟩

/-- Raw candidates of the spec's deduplication example: key `A1` with
visits 5 and score 1.0, key `A1` with visits 9 and score 1.2, key `B1`
with visits 3 and score 0.5. -/
def c6data : AnalysisData :=
  { moveInfos := some
      [ { move := some "A1", winrate := none, scoreLead := some 1,
          visits := some 5, order := some 0, pv := none },
        { move := some "A1", winrate := none, scoreLead := some (mkRat 6 5),
          visits := some 9, order := some 1, pv := none },
        { move := some "B1", winrate := none, scoreLead := some (mkRat 1 2),
          visits := some 3, order := some 2, pv := none } ] }

/-- The surviving `A1` candidate (visits 9, score 1.2). -/
def c6kept : MoveAnalysis :=
  { move := some (18, 0), is_pass := false, win_rate := 0,
    score_lead := mkRat 6 5, visits := 9, order := 1, pv := [] }

/-- The `B1` candidate (visits 3, score 0.5). -/
def c6other : MoveAnalysis :=
  { move := some (18, 1), is_pass := false, win_rate := 0,
    score_lead := mkRat 1 2, visits := 3, order := 2, pv := [] }

/-- The discarded lower-visit `A1` candidate. -/
def c6dup : MoveAnalysis :=
  { move := some (18, 0), is_pass := false, win_rate := 0, score_lead := 1,
    visits := 5, order := 0, pv := [] }

/-- C6: the candidate parser keeps exactly one candidate per distinct
(coordinate or pass) key — one with the maximal visit count for that key —
and returns the deduplicated candidates sorted by score-lead in descending
order; on the spec's example input the result is `[(A1, visits 9, score
1.2), (B1, visits 3, score 0.5)]`. -/
theorem dedup_sort_spec :
    (∀ (data : AnalysisData) (bs : Nat),
      (∀ x ∈ parse_move_candidates data bs,
        x ∈ parsed_candidates data bs ∧
        ∀ y ∈ parsed_candidates data bs,
          dedup_key y = dedup_key x → y.visits ≤ x.visits) ∧
      (∀ y ∈ parsed_candidates data bs,
        ∃ x ∈ parse_move_candidates data bs, dedup_key x = dedup_key y) ∧
      ((parse_move_candidates data bs).map dedup_key).Nodup ∧
      (parse_move_candidates data bs).Pairwise
        (fun a b => b.score_lead ≤ a.score_lead)) ∧
    parse_move_candidates c6data 19 = [c6kept, c6other] := by
  constructor
  · intro data bs
    obtain ⟨A, B, C, D4, _⟩ :=
      dedup_fold_spec (parsed_candidates data bs) [] (by simp) (by simp)
    have hperm := sort_desc_perm
      ((dedup_candidates (parsed_candidates data bs)).map Prod.snd)
    refine ⟨?_, ?_, ?_, sort_desc_sorted _⟩
    · intro x hx
      have hx' : x ∈ (dedup_candidates (parsed_candidates data bs)).map
          Prod.snd := hperm.mem_iff.mp hx
      obtain ⟨p, hp, hpx⟩ := List.mem_map.mp hx'
      obtain ⟨hmem, hmax⟩ := C p hp
      rcases hmem with hmem | hmem
      · refine ⟨hpx ▸ hmem, ?_⟩
        intro y hy hkey
        have := hmax y hy (by rw [hkey, ← hpx, A p hp])
        exact hpx ▸ this
      · cases hmem
    · intro y hy
      obtain ⟨p, hp, hpk⟩ := D4 y hy
      refine ⟨p.2, hperm.mem_iff.mpr (List.mem_map_of_mem Prod.snd hp), ?_⟩
      rw [A p hp, hpk]
    · have hmapped : ((dedup_candidates (parsed_candidates data bs)).map
          Prod.snd).map dedup_key =
          (dedup_candidates (parsed_candidates data bs)).map Prod.fst := by
        rw [List.map_map]
        exact List.map_congr_left A
      have hpm := hperm.map dedup_key
      rw [hmapped] at hpm
      exact hpm.symm.nodup B
  · decide

/-- Witness for C6: the discarded lower-visit `A1` entry is represented in
the output by some candidate with the same key. -/
theorem dedup_sort_spec_witness :
    ∃ x ∈ parse_move_candidates c6data 19, dedup_key x = dedup_key c6dup :=
  (dedup_sort_spec.1 c6data 19).2.1 c6dup (by decide)

/-- Python parses the string default `'7.5'` to the finite float 7.5. -/
lemma pyfloat_str_75 : pyfloat_str "7.5" = some (PyFloat.finite 7.5) := by
  have h1 : pyfloat_str "7.5" =
      some (PyFloat.finite ((7 : ℚ) + 5 / 10 ^ 1)) := rfl
  rw [h1]
  norm_num

/-- Python parses the string default `'6.5'` to the finite float 6.5. -/
lemma pyfloat_str_65 : pyfloat_str "6.5" = some (PyFloat.finite 6.5) := by
  have h1 : pyfloat_str "6.5" =
      some (PyFloat.finite ((6 : ℚ) + 5 / 10 ^ 1)) := rfl
  rw [h1]
  norm_num

lemma get_komi_seq_default (d : GameNode) (tl : List GameNode)
    (hkm : d.properties.lookup "KM" = none ∨
      ∃ v, d.properties.lookup "KM" = some v ∧ pyfloat v = none) :
    get_komi_seq (d :: tl) = PyFloat.finite 7.5 := by
  rw [get_komi_seq]
  rcases hkm with h | ⟨v, hv, hpv⟩
  · rw [h]
    simp [pyfloat, pyfloat_str_75]
  · rw [hv]
    simp [hpv]

lemma get_komi_default (t : GameTree)
    (hkm : t.root.props.lookup "KM" = none ∨
      ∃ v, t.root.props.lookup "KM" = some v ∧ pyfloat v = none) :
    t.get_komi = PyFloat.finite 6.5 := by
  rw [GameTree.get_komi]
  rcases hkm with h | ⟨v, hv, hpv⟩
  · rw [h]
    simp [pyfloat, pyfloat_str_65]
  · rw [hv]
    simp [hpv]

lemma main_line_of_head (g : GNodeT) :
    ∃ d tl, main_line_of g = d :: tl ∧ d.properties = g.props := by
  cases g with
  | node d cs =>
    cases cs with
    | nil => exact ⟨d, [], rfl, rfl⟩
    | cons c cs2 => exact ⟨d, main_line_of c, rfl, rfl⟩

/-- Every secondary query logged by `_create_position_analysis` carries
the komi it was given. -/
lemma create_q_komi (θ : ℚ) (komi : PyFloat) (n : Nat) (node : GameNode)
    (data : AnalysisData) (bs maxv : Nat) (e : Option Oracle)
    (ml : Option (List GameNode)) (mi : Option Nat) :
    ∀ q ∈ (create_position_analysis_q θ n node data bs e maxv ml mi
      komi).2, q.komi = komi := by
  intro q hq
  unfold create_position_analysis_q at hq
  simp only [] at hq
  repeat' split at hq
  all_goals simp_all

lemma seq_primary_query_komi {ml : List GameNode} {bs : Nat} {komi : PyFloat}
    {maxv : Nat} {stones : List (List String)} {i : Nat} {q : StatelessQuery}
    (h : seq_primary_query ml bs komi maxv stones i = some q) :
    q.komi = komi := by
  unfold seq_primary_query at h
  cases hb : build_prefix_gtp ml i bs with
  | none => rw [hb] at h; cases h
  | some moves => rw [hb] at h; cases h; rfl

lemma seq_step_komi {θ : ℚ} {o : Oracle} {ml : List GameNode}
    {bs maxv : Nat} {komi : PyFloat} {stones : List (List String)}
    {acc out : List PositionAnalysis × List StatelessQuery}
    {p : Nat × GameNode}
    (h : seq_step θ o ml bs maxv komi stones acc p = some out) :
    ∀ q ∈ out.2, q ∈ acc.2 ∨ q.komi = komi := by
  intro q hq
  unfold seq_step at h
  simp only [] at h
  split at h
  · cases h; exact Or.inl hq
  · split at h
    · cases h
    · rename_i q0 hq0
      split at h
      · cases h
        rcases List.mem_append.mp hq with hm | hm
        · exact Or.inl hm
        · rw [List.mem_singleton] at hm
          exact Or.inr (hm ▸ seq_primary_query_komi hq0)
      · cases h
        rcases List.mem_append.mp hq with hm | hm
        · rcases List.mem_append.mp hm with hm2 | hm2
          · exact Or.inl hm2
          · rw [List.mem_singleton] at hm2
            exact Or.inr (hm2 ▸ seq_primary_query_komi hq0)
        · exact Or.inr (create_q_komi θ komi p.1 p.2 _ bs maxv
            (some o) (some ml) (some p.1) q hm)

lemma seq_fold_komi (θ : ℚ) (o : Oracle) (ml : List GameNode)
    (bs maxv : Nat) (komi : PyFloat) (stones : List (List String)) :
    ∀ (l : List (Nat × GameNode))
      (acc : List PositionAnalysis × List StatelessQuery),
      (∀ q ∈ acc.2, q.komi = komi) →
      ∀ out, l.foldlM (seq_step θ o ml bs maxv komi stones) acc = some out →
      ∀ q ∈ out.2, q.komi = komi := by
  intro l
  induction l with
  | nil =>
    intro acc hacc out hout
    simp only [List.foldlM_nil] at hout
    cases hout
    exact hacc
  | cons p ps ih =>
    intro acc hacc out hout
    rw [List.foldlM_cons] at hout
    cases hstep : seq_step θ o ml bs maxv komi stones acc p with
    | none => rw [hstep] at hout; cases hout
    | some acc2 =>
      rw [hstep] at hout
      refine ih acc2 ?_ out hout
      intro q hq
      rcases seq_step_komi hstep q hq with hm | hm
      · exact hacc q hm
      · exact hm

lemma analyzer_position_komi {o : Oracle} {t : GameTree} {n maxv : Nat}
    {r : Option PositionAnalysis} {qs : List StatelessQuery}
    (h : analyzer_analyze_position_q o t n maxv = some (r, qs)) :
    ∀ q ∈ qs, q.komi = t.get_komi := by
  intro q hq
  unfold analyzer_analyze_position_q at h
  simp only [] at h
  split at h
  · cases h; simp at hq
  · split at h
    · cases h
    · split at h
      · cases h
        rw [List.mem_singleton] at hq
        subst hq
        rfl
      · cases h
        rw [List.mem_singleton] at hq
        subst hq
        rfl

/-- C10: with no `KM` root property (or an unparsable one), the batch
entry point issues every engine query with default komi 7.5, while
`GameTree.get_komi` — used by the single-position entry point — defaults
to 6.5: the two public entry points evaluate the same game with different
default komi values. -/
theorem komi_default_mismatch (θ : ℚ) (o : Oracle) (t : GameTree)
    (maxv n : Nat)
    (hkm : t.root.props.lookup "KM" = none ∨
      ∃ v, t.root.props.lookup "KM" = some v ∧ pyfloat v = none) :
    (∀ res qs, analyze_game_q θ o t maxv = some (res, qs) →
      ∀ q ∈ qs, q.komi = PyFloat.finite 7.5) ∧
    t.get_komi = PyFloat.finite 6.5 ∧
    (∀ r qs, analyzer_analyze_position_q o t n maxv = some (r, qs) →
      ∀ q ∈ qs, q.komi = PyFloat.finite 6.5) := by
  obtain ⟨d, tl, hml, hdp⟩ := main_line_of_head t.root
  have hseqkomi : get_komi_seq (main_line_of t.root) = PyFloat.finite 7.5 := by
    rw [hml]
    exact get_komi_seq_default d tl (by rw [hdp]; exact hkm)
  have hk6 : t.get_komi = PyFloat.finite 6.5 := get_komi_default t hkm
  refine ⟨?_, hk6, ?_⟩
  · intro res qs h q hq
    unfold analyze_game_q at h
    rw [if_neg (by rw [hml]; simp)] at h
    have := seq_fold_komi θ o (main_line_of t.root) t.board_size maxv
      (get_komi_seq (main_line_of t.root))
      (extract_initial_stones (main_line_of t.root) t.board_size)
      (main_line_of t.root).enum ([], []) (by simp) (res, qs) h q hq
    rw [hseqkomi] at this
    exact this
  · intro r qs h q hq
    have := analyzer_position_komi h q hq
    rw [hk6] at this
    exact this

/-- Root payload of the C10 witness tree (no `KM` property). -/
def c10root : GameNode :=
  { move := none, color := none, is_pass := false, properties := [] }

/-- The single Black move of the C10 witness tree. -/
def c10child : GameNode :=
  { move := some (0, 0), color := some Stone.black, is_pass := false,
    properties := [] }

/-- Game tree without a `KM` property, for the C10 witness: a root node
followed by one Black move. -/
def c10tree : GameTree :=
  { root := GNodeT.node c10root [GNodeT.node c10child []],
    board_size := 19 }

/-- Witness for C10 on a concrete KM-less tree. -/
theorem komi_default_mismatch_witness :
    (∀ res qs, analyze_game_q 3 (fun _ => none) c10tree 10 =
        some (res, qs) → ∀ q ∈ qs, q.komi = PyFloat.finite 7.5) ∧
    c10tree.get_komi = PyFloat.finite 6.5 ∧
    (∀ r qs, analyzer_analyze_position_q (fun _ => none) c10tree 0 10 =
        some (r, qs) → ∀ q ∈ qs, q.komi = PyFloat.finite 6.5) :=
  komi_default_mismatch 3 (fun _ => none) c10tree 10 0 (Or.inl (by decide))

/-- The verdict the sequential loop contributes for one enumerated
main-line entry: nothing for the root, nothing when the engine call fails,
otherwise the position's verdict. -/
def seq_position_result (θ : ℚ) (o : Oracle) (ml : List GameNode)
    (bs maxv : Nat) (komi : PyFloat) (stones : List (List String))
    (p : Nat × GameNode) : Option PositionAnalysis :=
  if p.2.move = none ∧ p.2.is_pass = false then none
  else
    match seq_primary_query ml bs komi maxv stones p.1 with
    | none => none
    | some q =>
      match o q with
      | none => none
      | some d =>
        some (create_position_analysis θ p.1 p.2 d bs (some o) maxv
          (some ml) (some p.1) komi)

lemma seq_fold_results (θ : ℚ) (o : Oracle) (ml : List GameNode)
    (bs maxv : Nat) (komi : PyFloat) (stones : List (List String)) :
    ∀ (l : List (Nat × GameNode))
      (acc : List PositionAnalysis × List StatelessQuery),
      (∀ p ∈ l, (seq_primary_query ml bs komi maxv stones p.1).isSome ∨
        (p.2.move = none ∧ p.2.is_pass = false)) →
      ∃ qs, l.foldlM (seq_step θ o ml bs maxv komi stones) acc =
        some (acc.1 ++
          l.filterMap (seq_position_result θ o ml bs maxv komi stones), qs) := by
  intro l
  induction l with
  | nil =>
    intro acc _
    exact ⟨acc.2, by simp⟩
  | cons p ps ih =>
    intro acc hconv
    rw [List.foldlM_cons]
    have hbind : ∀ (a : List PositionAnalysis × List StatelessQuery),
        ((some a : Option _) >>= fun b =>
          List.foldlM (seq_step θ o ml bs maxv komi stones) b ps) =
        List.foldlM (seq_step θ o ml bs maxv komi stones) a ps :=
      fun a => rfl
    by_cases hroot : p.2.move = none ∧ p.2.is_pass = false
    · have hstep : seq_step θ o ml bs maxv komi stones acc p = some acc := by
        unfold seq_step
        simp only []
        rw [if_pos hroot]
      rw [hstep, hbind]
      obtain ⟨qs, hqs⟩ := ih acc
        (fun r hr => hconv r (List.mem_cons_of_mem _ hr))
      refine ⟨qs, ?_⟩
      rw [hqs, List.filterMap_cons]
      rw [show seq_position_result θ o ml bs maxv komi stones p = none from by
        unfold seq_position_result
        rw [if_pos hroot]]
    · rcases hconv p (List.mem_cons_self _ _) with hq | hq
      swap
      · exact absurd hq hroot
      rw [Option.isSome_iff_exists] at hq
      obtain ⟨q, hq⟩ := hq
      cases ho : o q with
      | none =>
        have hstep : seq_step θ o ml bs maxv komi stones acc p =
            some (acc.1, acc.2 ++ [q]) := by
          unfold seq_step
          simp only []
          rw [if_neg hroot]
          simp only [hq, ho]
        rw [hstep, hbind]
        obtain ⟨qs, hqs⟩ := ih (acc.1, acc.2 ++ [q])
          (fun r hr => hconv r (List.mem_cons_of_mem _ hr))
        refine ⟨qs, ?_⟩
        rw [hqs, List.filterMap_cons]
        rw [show seq_position_result θ o ml bs maxv komi stones p = none from by
          unfold seq_position_result
          rw [if_neg hroot]
          simp only [hq, ho]]
      | some d =>
        have hstep : seq_step θ o ml bs maxv komi stones acc p =
            some (acc.1 ++ [(create_position_analysis_q θ p.1 p.2 d bs
              (some o) maxv (some ml) (some p.1) komi).1],
              acc.2 ++ [q] ++ (create_position_analysis_q θ p.1 p.2 d bs
              (some o) maxv (some ml) (some p.1) komi).2) := by
          unfold seq_step
          simp only []
          rw [if_neg hroot]
          simp only [hq, ho]
        rw [hstep, hbind]
        obtain ⟨qs, hqs⟩ := ih _
          (fun r hr => hconv r (List.mem_cons_of_mem _ hr))
        refine ⟨qs, ?_⟩
        rw [hqs, List.filterMap_cons]
        rw [show seq_position_result θ o ml bs maxv komi stones p =
          some (create_position_analysis θ p.1 p.2 d bs (some o) maxv
            (some ml) (some p.1) komi) from by
          unfold seq_position_result
          rw [if_neg hroot]
          simp only [hq, ho]]
        rw [create_position_analysis]
        simp

/-- C5: no single position's failure aborts the sequential batch — under
the always-true assumption that coordinate conversion succeeds on the
game's moves, `analyze_sequential` returns (never raises), and the result
is the per-position `filterMap`: a position whose engine call fails
(timeout `none`, or data whose malformed records the parser dropped,
leaving the played move unmatched) contributes nothing, while every other
position contributes exactly its own verdict. -/
theorem seq_isolates_failures (θ : ℚ) (o : Oracle) (ml : List GameNode)
    (bs maxv : Nat)
    (hconv : ∀ p ∈ ml.enum, (build_prefix_gtp ml p.1 bs).isSome) :
    analyze_sequential θ o ml bs maxv =
      some (ml.enum.filterMap
        (seq_position_result θ o ml bs maxv (get_komi_seq ml)
          (extract_initial_stones ml bs))) := by
  have hconv2 : ∀ p ∈ ml.enum,
      (seq_primary_query ml bs (get_komi_seq ml) maxv
        (extract_initial_stones ml bs) p.1).isSome ∨
      (p.2.move = none ∧ p.2.is_pass = false) := by
    intro p hp
    left
    unfold seq_primary_query
    rcases Option.isSome_iff_exists.mp (hconv p hp) with ⟨m, hm⟩
    rw [hm]
    rfl
  obtain ⟨qs, hqs⟩ := seq_fold_results θ o ml bs maxv (get_komi_seq ml)
    (extract_initial_stones ml bs) ml.enum ([], []) hconv2
  unfold analyze_sequential analyze_sequential_q
  rw [hqs]
  simp

/-- Second move of the C5 witness game. -/
def c5node2 : GameNode :=
  { move := some (0, 1), color := some Stone.white, is_pass := false,
    properties := [] }

/-- C5 witness game: root, Black `A19`, White `B19`. -/
def c5ml : List GameNode := [c2root, c1node, c5node2]

/-- C5 witness engine: times out on the first position's query (empty
prefix) and answers the second position's query (prefix `["A19"]`). -/
def c5oracle : Oracle := fun q =>
  if q.moves = ["A19"] then some c1data else none

/-- Witness for C5: with an engine that fails on one position, the batch
still returns, and the result is the per-position filterMap. -/
theorem seq_isolates_failures_witness :
    analyze_sequential 3 c5oracle c5ml 19 10 =
      some (c5ml.enum.filterMap
        (seq_position_result 3 c5oracle c5ml 19 10 (get_komi_seq c5ml)
          (extract_initial_stones c5ml 19))) :=
  seq_isolates_failures 3 c5oracle c5ml 19 10 (by decide)

/-- Every entry of the parallel results array is either empty or some
worker's output. -/
lemma foldl_set_entries (f : Nat → Option PositionAnalysis) :
    ∀ (order : List Nat) (arr : List (Option PositionAnalysis)),
      (∀ x ∈ arr, x = none ∨ ∃ k, x = f k) →
      ∀ x ∈ order.foldl (fun results idx => results.set idx (f idx)) arr,
        x = none ∨ ∃ k, x = f k := by
  intro order
  induction order with
  | nil => intro arr h; simpa using h
  | cons idx rest ih =>
    intro arr h
    rw [List.foldl_cons]
    refine ih _ ?_
    intro x hx
    rcases List.mem_or_eq_of_mem_set hx with hx2 | hx2
    · exact h x hx2
    · exact Or.inr ⟨idx, hx2⟩

/-- Every verdict collected from the parallel pool is some worker's
output. -/
lemma collect_parallel_source {n : Nat} {f : Nat → Option PositionAnalysis}
    {order : List Nat} {r : PositionAnalysis}
    (hr : r ∈ collect_parallel n f order) : ∃ k, f k = some r := by
  unfold collect_parallel at hr
  obtain ⟨x, hx, hxr⟩ := List.mem_filterMap.mp hr
  rcases foldl_set_entries f order (List.replicate n none) (by simp) x hx
    with h0 | ⟨k, hk⟩
  · rw [h0] at hxr; cases hxr
  · exact ⟨k, by rw [← hk]; exact hxr⟩

/-- A parallel worker's verdict carries its own position index. -/
lemma analyze_move_parallel_move_number {θ : ℚ} {script : EngineScript}
    {ml : List GameNode} {i : Nat} {node : GameNode} {bs maxv : Nat}
    {r : PositionAnalysis}
    (h : analyze_move_parallel θ script ml i node bs maxv = some r) :
    r.move_number = i := by
  unfold analyze_move_parallel at h
  simp only [] at h
  repeat' split at h
  all_goals try cases h
  all_goals rfl

/-- A Black stone at column `i` of the top row, for the C4 and C3
witness games. -/
def cmove (i : Int) : GameNode :=
  { move := some (0, i), color := some Stone.black, is_pass := false,
    properties := [] }

/-- Game of the C4 counterexample: root plus six moves, so that replaying
the prefix of position 6 issues five `play_move` calls. -/
def c4ml : List GameNode :=
  [c2root, cmove 0, cmove 1, cmove 2, cmove 3, cmove 4, cmove 5]

/-- Stub stateful engine of the C4 counterexample: rejects the fifth
`play_move` call once, then would accept the five calls of a retry; its
analysis succeeds. -/
def c4script : EngineScript :=
  { play_results := [true, true, true, true, false,
      true, true, true, true, true],
    analysis_result := some c1data }

/-- C4 counterexample: against an engine that rejects the fifth
`play_move` once but would accept a full retry (the next five scripted
results are all `true`, and the analysis result is available), the worker
still discards the position — the code performs no retry. -/
theorem replay_no_retry_counterexample :
    analyze_move_parallel 3 c4script c4ml 6 (cmove 5) 19 10 = none ∧
    c4script.play_results.take 5 = [true, true, true, true, false] ∧
    (c4script.play_results.drop 5).take 5 =
      [true, true, true, true, true] ∧
    c4script.analysis_result.isSome = true := by
  decide

/-- C4 (amended): in parallel mode, if any `play_move` step of a
position's single replay reports failure, the worker immediately discards
that position's analysis — there is no retry — and the batch continues,
merely omitting that position's verdict from the collected results. -/
theorem replay_failure_drops_position (θ : ℚ) (script : EngineScript)
    (ml : List GameNode) (i : Nat) (node : GameNode) (bs maxv : Nat)
    (cs : List (String × String)) (hcs : replay_calls ml i bs = some cs)
    (j : Nat) (hj : j < cs.length)
    (hfail : script.play_results.getD j false = false) :
    analyze_move_parallel θ script ml i node bs maxv = none ∧
    ∀ (scripts : Nat → EngineScript) (order : List Nat),
      ml.get? i = some node → scripts i = script →
      ∀ r ∈ analyze_parallel θ scripts ml bs maxv order,
        r.move_number ≠ i := by
  have hko : (List.range cs.length).all
      (fun j => script.play_results.getD j false) = false := by
    by_contra hall
    rw [Bool.not_eq_false, List.all_eq_true] at hall
    have := hall j (List.mem_range.mpr hj)
    rw [hfail] at this
    cases this
  have hdrop : analyze_move_parallel θ script ml i node bs maxv = none := by
    unfold analyze_move_parallel
    by_cases hroot : node.move = none ∧ node.is_pass = false
    · rw [if_pos hroot]
    · rw [if_neg hroot]
      simp only [hcs, hko]
      rfl
  refine ⟨hdrop, ?_⟩
  intro scripts order hget hscr r hr heq
  obtain ⟨k, hk⟩ := collect_parallel_source hr
  cases hgk : ml.get? k with
  | none => rw [hgk] at hk; cases hk
  | some node2 =>
    rw [hgk] at hk
    have hmk : r.move_number = k := analyze_move_parallel_move_number hk
    rw [heq] at hmk
    rw [← hmk] at hgk hk
    rw [hget] at hgk
    cases hgk
    rw [hscr] at hk
    simp only [] at hk
    rw [hdrop] at hk
    cases hk

/-- The five `play_move` calls replaying the prefix of position 6 in the
C4 witness game. -/
def c4calls : List (String × String) :=
  [("B", "A19"), ("B", "B19"), ("B", "C19"), ("B", "D19"), ("B", "E19")]

/-- Witness for the amended C4: with the fifth `play_move` rejected, the
worker drops position 6 and no batch result carries move number 6. -/
theorem replay_failure_drops_position_witness :
    analyze_move_parallel 3 c4script c4ml 6 (cmove 5) 19 10 = none ∧
    ∀ (scripts : Nat → EngineScript) (order : List Nat),
      c4ml.get? 6 = some (cmove 5) → scripts 6 = c4script →
      ∀ r ∈ analyze_parallel 3 scripts c4ml 19 10 order,
        r.move_number ≠ 6 :=
  replay_failure_drops_position 3 c4script c4ml 6 (cmove 5) 19 10
    c4calls (by decide) 4 (by decide) (by decide)

/-- The parallel results array holds `f i` at every index that some
completed future wrote, and its initial value elsewhere. -/
lemma foldl_set_get? (f : Nat → Option PositionAnalysis) :
    ∀ (order : List Nat) (arr : List (Option PositionAnalysis)) (i : Nat),
      (order.foldl (fun results idx => results.set idx (f idx)) arr).get? i =
      if i ∈ order ∧ i < arr.length then some (f i) else arr.get? i := by
  intro order
  induction order with
  | nil => intro arr i; simp
  | cons idx rest ih =>
    intro arr i
    rw [List.foldl_cons, ih, List.length_set]
    by_cases hidx : idx = i
    · subst hidx
      rw [List.get?_set_eq _ _ _]
      by_cases hlt : idx < arr.length
      · rw [List.get?_eq_get hlt]
        by_cases hrest : idx ∈ rest <;> simp [hrest, hlt, List.mem_cons]
      · rw [List.get?_eq_none.mpr (le_of_not_lt hlt)]
        by_cases hrest : idx ∈ rest <;> simp [hrest, hlt, List.mem_cons]
    · rw [List.get?_set_ne _ _ hidx]
      by_cases hrest : i ∈ rest <;> by_cases hlt : i < arr.length <;>
        simp [hrest, hlt, List.mem_cons, Ne.symm hidx]

/-- When every index was completed by some future, the collected parallel
results are the in-order verdicts — completion order is irrelevant. -/
lemma collect_parallel_eq (n : Nat) (f : Nat → Option PositionAnalysis)
    (order : List Nat) (horder : ∀ i < n, i ∈ order) :
    collect_parallel n f order = (List.range n).filterMap f := by
  unfold collect_parallel
  have harr : order.foldl (fun results idx => results.set idx (f idx))
      (List.replicate n none) = (List.range n).map (fun i => f i) := by
    apply List.ext_get?
    intro i
    rw [foldl_set_get? f order _ i]
    by_cases hlt : i < n
    · rw [if_pos ⟨horder i hlt, by simpa using hlt⟩]
      rw [List.get?_eq_getElem?, List.getElem?_map, List.getElem?_range hlt]
      rfl
    · rw [if_neg (fun hc => hlt (by simpa using hc.2))]
      rw [List.get?_eq_getElem?, List.get?_eq_getElem?, List.getElem?_map]
      rw [List.getElem?_replicate, if_neg hlt]
      rw [show (List.range n)[i]? = none from
        List.getElem?_eq_none (by simpa using le_of_not_lt hlt)]
      rfl
  rw [harr, List.filterMap_map]
  rfl

/-- If building the GTP prefix list succeeds, issuing the same prefix as
`play_move` calls also converts every coordinate successfully. -/
lemma replay_isSome_of_build {bs : Nat} :
    ∀ (l : List GameNode) (a1 : List String)
      (a2 : List (String × String)),
      (l.foldlM (fun (acc : List String) (n : GameNode) =>
        if n.is_pass then some (acc ++ ["pass"])
        else
          match n.move with
          | some (r, c) =>
            match coords_to_gtp r c bs with
            | none => none
            | some g => some (acc ++ [g])
          | none => some acc) a1).isSome →
      (l.foldlM (fun (acc : List (String × String)) (n : GameNode) =>
        if n.is_pass then
          some (acc ++ [(if n.color = some Stone.black then "B" else "W",
            "pass")])
        else
          match n.move with
          | some (r, c) =>
            match coords_to_gtp r c bs with
            | none => none
            | some g =>
              some (acc ++ [(if n.color = some Stone.black then "B"
                else "W", g)])
          | none => some acc) a2).isSome := by
  intro l
  induction l with
  | nil => intro a1 a2 _; simp
  | cons nd rest ih =>
    intro a1 a2 h
    rw [List.foldlM_cons] at h ⊢
    by_cases hpass : nd.is_pass = true
    · rw [if_pos hpass] at h ⊢
      exact ih _ _ h
    · rw [if_neg hpass] at h ⊢
      cases hmv : nd.move with
      | none => rw [hmv] at h; exact ih _ _ h
      | some rc =>
        obtain ⟨r, c⟩ := rc
        rw [hmv] at h
        simp only [] at h ⊢
        cases hg : coords_to_gtp r c bs with
        | none =>
          rw [hg] at h
          exact Bool.noConfusion (show false = true from h)
        | some g =>
          rw [hg] at h
          exact ih _ _ h

/-- When the played move is found among the candidates, the verdict does
not depend on the engine handle, restoration data, or komi. -/
lemma create_engine_agnostic {node : GameNode} {d : AnalysisData} {bs : Nat}
    (hf : (find_played node (parse_move_candidates d bs)).isSome)
    (θ : ℚ) (n maxv : Nat) (e1 e2 : Option Oracle)
    (ml1 ml2 : Option (List GameNode)) (mi1 mi2 : Option Nat) (k1 k2 : PyFloat) :
    create_position_analysis θ n node d bs e1 maxv ml1 mi1 k1 =
    create_position_analysis θ n node d bs e2 maxv ml2 mi2 k2 := by
  rw [Option.isSome_iff_exists] at hf
  obtain ⟨m, hm⟩ := hf
  unfold create_position_analysis create_position_analysis_q
  simp only [hm]

/-- The fixed game of the C3 counterexample: root plus Black `A19`. -/
def c3ml : List GameNode := [c2root, c1node]

/-- Deterministic engine of the C3 counterexample: answers the primary
query (empty prefix) with candidates not containing the played `A19`, and
answers the secondary query `["A19"]`. -/
def c3oracle : Oracle := fun q =>
  if q.moves = [] then some c2data
  else if q.moves = ["A19"] then some c2od else none

/-- The same deterministic engine behaviour packaged per position for the
parallel pool: each position's analysis result is exactly what the
sequential primary query would obtain, and every replay succeeds. -/
def c3scripts : Nat → EngineScript := fun i =>
  { play_results := List.replicate 10 true,
    analysis_result :=
      (seq_primary_query c3ml 19 (get_komi_seq c3ml) 10
        (extract_initial_stones c3ml 19) i).bind c3oracle }

/-- C3 counterexample: on the same fixed game against the same
deterministic engine data, sequential mode produces a verdict whose
played-move analysis is non-null (via the secondary query), while
parallel mode — which passes no engine to the verdict builder — produces
a null one: the verdict lists differ. -/
theorem parallel_seq_counterexample :
    (analyze_sequential 3 c3oracle c3ml 19 10).map
        (fun l => l.map (fun r => r.played_move_analysis.isSome)) =
      some [true] ∧
    (analyze_parallel 3 c3scripts c3ml 19 10 [0, 1]).map
        (fun r => r.played_move_analysis.isSome) = [false] := by
  decide

/-- C3 (amended): sequential and parallel analysis of the same game
against the same deterministic engine yield identical verdict lists,
indexed by move number and independent of completion order, provided
every position's played move is found among the returned candidates (when
it is not, only the sequential path issues the secondary query) and every
replay step succeeds. -/
theorem parallel_seq_agree (θ : ℚ) (o : Oracle)
    (scripts : Nat → EngineScript) (ml : List GameNode) (bs maxv : Nat)
    (order : List Nat)
    (hconv : ∀ p ∈ ml.enum, (build_prefix_gtp ml p.1 bs).isSome)
    (horder : ∀ i < ml.length, i ∈ order)
    (hdata : ∀ p ∈ ml.enum, (scripts p.1).analysis_result =
      (seq_primary_query ml bs (get_komi_seq ml) maxv
        (extract_initial_stones ml bs) p.1).bind o)
    (hreplay : ∀ p ∈ ml.enum, ∀ cs, replay_calls ml p.1 bs = some cs →
      ∀ j < cs.length, (scripts p.1).play_results.getD j false = true)
    (hfound : ∀ p ∈ ml.enum, ∀ d, (scripts p.1).analysis_result = some d →
      ¬(p.2.move = none ∧ p.2.is_pass = false) →
      (find_played p.2 (parse_move_candidates d bs)).isSome) :
    analyze_sequential θ o ml bs maxv =
      some (analyze_parallel θ scripts ml bs maxv order) := by
  rw [seq_isolates_failures θ o ml bs maxv hconv]
  unfold analyze_parallel
  rw [collect_parallel_eq _ _ order horder]
  rw [← List.enum_map_fst ml, List.filterMap_map]
  congr 1
  apply List.filterMap_congr
  intro p hp
  have hnode : ml.get? p.1 = some p.2 := by
    have := List.mem_enum_iff_get?.mp hp
    exact this
  show seq_position_result θ o ml bs maxv (get_komi_seq ml)
      (extract_initial_stones ml bs) p = _
  unfold seq_position_result
  simp only [Function.comp]
  rw [hnode]
  simp only []
  by_cases hroot : p.2.move = none ∧ p.2.is_pass = false
  · rw [if_pos hroot]
    unfold analyze_move_parallel
    rw [if_pos hroot]
  · rw [if_neg hroot]
    obtain ⟨pre, hpre⟩ := Option.isSome_iff_exists.mp (hconv p hp)
    obtain ⟨q0, hq⟩ : ∃ q0, seq_primary_query ml bs (get_komi_seq ml) maxv
        (extract_initial_stones ml bs) p.1 = some q0 :=
      Option.isSome_iff_exists.mp
        (by unfold seq_primary_query; rw [hpre]; rfl)
    simp only [hq]
    obtain ⟨cs, hcs⟩ := Option.isSome_iff_exists.mp
      (replay_isSome_of_build (ml.take p.1) [] []
        (by unfold build_prefix_gtp at hpre; rw [hpre]; rfl))
    have hok : (List.range cs.length).all
        (fun j => (scripts p.1).play_results.getD j false) = true := by
      rw [List.all_eq_true]
      intro j hj
      exact hreplay p hp cs (by unfold replay_calls; exact hcs)
        j (List.mem_range.mp hj)
    unfold analyze_move_parallel
    rw [if_neg hroot]
    rw [show replay_calls ml p.1 bs = some cs from by
      unfold replay_calls; exact hcs]
    simp only [hok]
    rw [if_neg (show ¬¬True from fun hc => hc trivial)]
    rw [hdata p hp, hq]
    simp only [Option.some_bind]
    cases ho : o q0 with
    | none => rfl
    | some d =>
      simp only []
      congr 1
      exact create_engine_agnostic
        (hfound p hp d
          (by rw [hdata p hp, hq]; simp only [Option.some_bind]; exact ho)
          hroot)
        θ p.1 maxv (some o) none (some ml) none (some p.1) none
        (get_komi_seq ml) (PyFloat.finite 7.5)

/-- Engine of the C3 witness: answers the primary query with candidates
containing the played move. -/
def c3wOracle : Oracle := fun q =>
  if q.moves = [] then some c1data else none

/-- The C3 witness engine packaged per position for the parallel pool. -/
def c3wScripts : Nat → EngineScript := fun i =>
  { play_results := List.replicate 10 true,
    analysis_result :=
      (seq_primary_query c3ml 19 (get_komi_seq c3ml) 10
        (extract_initial_stones c3ml 19) i).bind c3wOracle }

/-- Witness for the amended C3: on a game whose played move is among the
candidates, sequential analysis agrees with parallel analysis run in
reversed completion order. -/
theorem parallel_seq_agree_witness :
    analyze_sequential 3 c3wOracle c3ml 19 10 =
      some (analyze_parallel 3 c3wScripts c3ml 19 10 [1, 0]) :=
  parallel_seq_agree 3 c3wOracle c3wScripts c3ml 19 10 [1, 0]
    (by decide) (by decide) (fun p _ => rfl)
    (by
      intro p hp cs hcs j hj
      rcases List.mem_cons.mp hp with rfl | hp2
      · rw [show replay_calls c3ml 0 19 = some [] from rfl] at hcs
        cases hcs
        simp at hj
      · rcases List.mem_cons.mp hp2 with rfl | hp3
        · rw [show replay_calls c3ml 1 19 = some [] from rfl] at hcs
          cases hcs
          simp at hj
        · simp at hp3)
    (by
      intro p hp d hd hroot
      rcases List.mem_cons.mp hp with rfl | hp2
      · exact absurd ⟨rfl, rfl⟩ hroot
      · rcases List.mem_cons.mp hp2 with rfl | hp3
        · rw [show (c3wScripts (1, c1node).1).analysis_result =
            some c1data from rfl] at hd
          cases hd
          decide
        · simp at hp3)

end GoAnalysis
